import Mathlib

set_option maxHeartbeats 1000000

/-!
Verification development for the UBC-Grade-Insight analytical data service.

The definitions below are a shallow embedding of the TypeScript source under
`src/src/controller`.  JavaScript numbers are idealized as exact rationals
(`Rat`); JavaScript exceptions are modelled with `Except`, keeping only the
error kind that the test suite and the HTTP layer distinguish.
-/

/-- Error kinds surfaced by the engine: `insight` stands for the
`InsightError` family (invalid query / invalid content), `resultTooLarge`
for `ResultTooLargeError`, `notFound` for `NotFoundError`, and `other` for
plain JavaScript runtime errors (`TypeError`, `URIError`, ...) that escape
or are wrapped by the code. -/
inductive QErr where
  | insight
  | resultTooLarge
  | notFound
  | other
  deriving DecidableEq, Repr

/-- A scalar value of a row field as seen by the query engine:
`string | number` in the source. -/
inductive SVal where
  | str (s : String)
  | num (q : Rat)
  deriving DecidableEq, Repr

/-- A Section row with the declared field types, as the query engine sees it
after `DatasetProcessor.loadFromDisk` rebuilds rows from a stored dataset
document (class `Section` in `types/Section.ts`, accessed through its
getters). -/
structure Sec where
  uuid : String
  id : String
  title : String
  instructor : String
  dept : String
  year : Rat
  avg : Rat
  pass : Rat
  fail : Rat
  audit : Rat
  deriving DecidableEq, Repr

/-- Splitting on a single separator character, as `str.split(sep)` does:
the string is cut at every occurrence of the separator and the chunks are
returned in order (an empty string yields one empty chunk). -/
def splitChar (sep : Char) : List Char → List Char → List String
  | [], acc => [String.mk acc.reverse]
  | c :: cs, acc =>
    if c = sep then String.mk acc.reverse :: splitChar sep cs []
    else splitChar sep cs (c :: acc)

/-- The field-name part of a dataset key: `key.split("_")[1]`, which is
absent (`undefined`) when the key contains no underscore. -/
def keyField (key : String) : Option String :=
  (splitChar '_' key.data [])[1]?

/-- Embeds `SectionHelper.getSectionValue`: the field name is
`key.split("_")[1]`, looked up in the field map; an unknown or absent field
name throws `InsightError`. -/
def getSectionValue (s : Sec) (key : String) : Except QErr SVal :=
  match keyField key with
  | some "uuid" => .ok (.str s.uuid)
  | some "id" => .ok (.str s.id)
  | some "title" => .ok (.str s.title)
  | some "instructor" => .ok (.str s.instructor)
  | some "dept" => .ok (.str s.dept)
  | some "year" => .ok (.num s.year)
  | some "avg" => .ok (.num s.avg)
  | some "pass" => .ok (.num s.pass)
  | some "fail" => .ok (.num s.fail)
  | some "audit" => .ok (.num s.audit)
  | _ => .error .insight

/-- One token of the regular expression that `handleISComparator` builds:
the source turns the IS pattern into
`new RegExp("^" + value.replace(/\*/g, ".*") + "$")`, so every star becomes
`.*`.  The embedding matches every other pattern character literally; in
the source the pattern is compiled unescaped, so a remaining regex
metacharacter keeps its regex meaning (the pattern `a.c` matches the field
`abc`) and a syntactically invalid remainder such as `c(` makes
`new RegExp` throw an uncaught `SyntaxError`.  The model is therefore
faithful only on patterns whose non-star characters are regex-literal. -/
inductive Tok where
  | lit (c : Char)
  | star
  deriving DecidableEq, Repr

/-- The token list of an IS pattern: each star becomes a `.*` token. -/
def patToks (pat : String) : List Tok :=
  pat.data.map (fun c => if c = '*' then Tok.star else Tok.lit c)

/-- Anchored matching of the built regular expression against the whole
string (the `^`/`$` anchors of the source): a literal token consumes one
equal character, and `.*` consumes an arbitrary prefix, so the rest of the
pattern is matched against some suffix. -/
def toksMatch : List Tok → List Char → Bool
  | [], xs => xs.isEmpty
  | .lit _ :: _, [] => false
  | .lit c :: ts, x :: xs => c = x && toksMatch ts xs
  | .star :: ts, xs => xs.tails.any fun suf => toksMatch ts suf

/-- Embeds `value.slice(1, -1).includes("*")`: does the pattern contain a
star anywhere besides its first and last character? -/
def middleWildcard (pat : String) : Bool :=
  ((pat.data.drop 1).dropLast).contains '*'

/-- Embeds `QueryEngine.handleISComparator` (the variant taking the column
name, content value and pattern): a non-string content value throws, a
middle wildcard throws (this check runs before the regular expression is
built), otherwise the anchored regular expression built from the pattern
is tested against the content value — with the literal-character
approximation recorded at `Tok`. -/
def handleISComparator (contentValue : SVal) (value : String) : Except QErr Bool :=
  match contentValue with
  | .num _ => .error .insight
  | .str s =>
    if middleWildcard value then .error .insight
    else .ok (toksMatch (patToks value) s.data)

/-- The WHERE tree of a shape-checked query.  Each node of the source is a
JSON object whose first key selects the operator; `empty` is the empty
object accepted at the top level by `handleWhere`.  Comparison literals
carry the type a valid query supplies (number for GT/LT/EQ, string for
IS). -/
inductive WFilter where
  | empty
  | and (fs : List WFilter)
  | or (fs : List WFilter)
  | not (f : WFilter)
  | gt (key : String) (v : Rat)
  | lt (key : String) (v : Rat)
  | eq (key : String) (v : Rat)
  | is (key : String) (pattern : String)

deriving instance DecidableEq for Except

mutual

/-- Embeds `QueryEngine.evaluateCondition` together with `handleComparator`:
AND is `Array.every`, OR is `Array.some` (both short-circuiting, both
propagating a thrown error), NOT negates, the comparators fetch the field
value with `getSectionValue` and require a numeric field for GT/LT/EQ and a
string field for IS; any other node (including the empty object, whose
first key is `undefined`) throws `InsightError`. -/
def evaluateCondition : WFilter → Sec → Except QErr Bool
  | .empty, _ => .error .insight
  | .and fs, s => evalEvery fs s
  | .or fs, s => evalSome fs s
  | .not f, s =>
      match evaluateCondition f s with
      | .error e => .error e
      | .ok b => .ok (!b)
  | .gt key v, s =>
      match getSectionValue s key with
      | .error e => .error e
      | .ok (.num q) => .ok (decide (v < q))
      | .ok (.str _) => .error .insight
  | .lt key v, s =>
      match getSectionValue s key with
      | .error e => .error e
      | .ok (.num q) => .ok (decide (q < v))
      | .ok (.str _) => .error .insight
  | .eq key v, s =>
      match getSectionValue s key with
      | .error e => .error e
      | .ok (.num q) => .ok (decide (q = v))
      | .ok (.str _) => .error .insight
  | .is key pat, s =>
      match getSectionValue s key with
      | .error e => .error e
      | .ok cv => handleISComparator cv pat
termination_by structural f => f

/-- `conditions.every(sub => evaluateCondition(sub, content))`. -/
def evalEvery : List WFilter → Sec → Except QErr Bool
  | [], _ => .ok true
  | f :: fs, s =>
      match evaluateCondition f s with
      | .error e => .error e
      | .ok true => evalEvery fs s
      | .ok false => .ok false
termination_by structural fs => fs

/-- `conditions.some(sub => evaluateCondition(sub, content))`. -/
def evalSome : List WFilter → Sec → Except QErr Bool
  | [], _ => .ok false
  | f :: fs, s =>
      match evaluateCondition f s with
      | .error e => .error e
      | .ok true => .ok true
      | .ok false => evalSome fs s
termination_by structural fs => fs

end

/-- `Array.prototype.filter` with a callback that may throw: elements are
tested left to right and the first thrown error aborts the whole call. -/
def filterE (p : α → Except ε Bool) : List α → Except ε (List α)
  | [] => .ok []
  | x :: xs =>
    match p x with
    | .error e => .error e
    | .ok b =>
      match filterE p xs with
      | .error e => .error e
      | .ok rest => .ok (if b then x :: rest else rest)

/-- `Array.prototype.map` with a callback that may throw: elements are
mapped left to right and the first thrown error aborts the whole call
(also the sequential `mapM` used throughout the embedding). -/
def mapME (f : α → Except ε β) : List α → Except ε (List β)
  | [] => .ok []
  | x :: xs =>
    match f x with
    | .error e => .error e
    | .ok y =>
      match mapME f xs with
      | .error e => .error e
      | .ok ys => .ok (y :: ys)

/-- Embeds `QueryEngine.handleWhere` for a Sections dataset: an empty WHERE
object returns the whole content unfiltered; otherwise a non-empty content
array is filtered by `evaluateCondition` and an empty content array yields
the empty list. -/
def handleWhere (w : WFilter) (rows : List Sec) : Except QErr (List Sec) :=
  match w with
  | .empty => .ok rows
  | _ =>
    match rows with
    | [] => .ok []
    | _ :: _ => filterE (fun s => evaluateCondition w s) rows

/-- The ORDER clause of a shape-checked query: either a bare column name or
an object carrying a direction string and a key array. -/
inductive QOrder where
  | key (k : String)
  | dirKeys (dir : String) (keys : List String)

/-- The OPTIONS clause as `handleOptions` reads it: `options.COLUMNS ?? []`
(a missing COLUMNS is the empty list) and the optional ORDER. -/
structure QOptions where
  columns : List String
  order : Option QOrder

/-- The loop of `validateOrder` over the sort keys: every key must be
contained in COLUMNS, otherwise `InsightError`. -/
def checkOrderKeys (keys : List String) (columns : List String) : Except QErr Unit :=
  match keys with
  | [] => .ok ()
  | k :: ks => if columns.contains k then checkOrderKeys ks columns else .error .insight

/-- Embeds `QueryEngine.validateOrder`: a string ORDER sorts ascending by
that one key; an object ORDER needs `dir` equal to UP or DOWN and its keys
all in COLUMNS; the result is the key list and the ascending flag. -/
def validateOrder (order : QOrder) (columns : List String) : Except QErr (List String × Bool) :=
  match order with
  | .key k =>
      match checkOrderKeys [k] columns with
      | .error e => .error e
      | .ok _ => .ok ([k], true)
  | .dirKeys dir keys =>
      if dir = "UP" || dir = "DOWN" then
        match checkOrderKeys keys columns with
        | .error e => .error e
        | .ok _ => .ok (keys, dir = "UP")
      else .error .insight

/-- A row flowing into `handleOptions`: either a Section instance or a plain
transformed object produced by `handleTransformations` (an association list
from column name to cell; a `none` cell stands for a JavaScript value that
is no finite scalar, that is `undefined`, `NaN` or an infinity). -/
inductive QRow where
  | sec (s : Sec)
  | obj (fields : List (String × Option SVal))

/-- Plain property access `obj[name]` on a Section instance: the class
stores its constructor arguments under these property names (this is also
how `JSON.stringify` serializes a Section). -/
def secProp (s : Sec) (name : String) : Option SVal :=
  match name with
  | "uuid" => some (.str s.uuid)
  | "id" => some (.str s.id)
  | "title" => some (.str s.title)
  | "instructor" => some (.str s.instructor)
  | "dept" => some (.str s.dept)
  | "year" => some (.num s.year)
  | "avg" => some (.num s.avg)
  | "pass" => some (.num s.pass)
  | "fail" => some (.num s.fail)
  | "audit" => some (.num s.audit)
  | _ => none

/-- Embeds `QueryEngine.getValueFromObject` with the key name already
split: property access on the row, yielding `undefined` (`none`) for an
unknown property or an absent key name.  A transformed object reached here
is accessed at the bare field name, which its prefixed keys never match. -/
def getValueFromObject (r : QRow) (keyName : Option String) : Option SVal :=
  match r, keyName with
  | _, none => none
  | .sec s, some n => secProp s n
  | .obj fields, some n => (fields.lookup n).join

/-- The per-key comparison of `compareSectionsOrRooms`: two numbers compare
by `valA - valB`, two strings by `localeCompare` (modelled as code point
order), and any other combination compares equal. -/
def compareVals : Option SVal → Option SVal → Rat
  | some (.num a), some (.num b) => a - b
  | some (.str a), some (.str b) =>
      match compare a b with
      | .lt => -1
      | .eq => 0
      | .gt => 1
  | _, _ => 0

/-- Embeds `QueryEngine.compareSectionsOrRooms`: keys are tried in priority
order, each key name being `key.split("_")[1]`; the first non-zero
comparison decides, negated when descending; rows equal under every key
compare equal. -/
def compareQRows (keys : List String) (ascending : Bool) (a b : QRow) : Rat :=
  match keys with
  | [] => 0
  | k :: ks =>
    let comparison := compareVals (getValueFromObject a (keyField k)) (getValueFromObject b (keyField k))
    if comparison = 0 then compareQRows ks ascending a b
    else if ascending then comparison else -comparison

/-- Embeds `content.sort(cmp)` for the comparator above: a stable sort
placing `a` before `b` whenever the comparator is nonpositive
(`Array.prototype.sort` is stable). -/
def sortQRows (keys : List String) (ascending : Bool) (content : List QRow) : List QRow :=
  content.mergeSort (fun a b => compareQRows keys ascending a b ≤ 0)

/-- One cell of a projected result row: `getSectionValue` for a Section
(which throws on an unknown column) and plain property access for a
transformed object (which yields `undefined` for an absent column). -/
def projectCell (r : QRow) (column : String) : Except QErr (Option SVal) :=
  match r with
  | .sec s => (getSectionValue s column).map some
  | .obj fields => .ok ((fields.lookup column).join)

/-- One result record of `handleOptions`: the requested columns in order,
each paired with its cell value. -/
def projectRow (columns : List String) (r : QRow) : Except QErr (List (String × Option SVal)) :=
  mapME (fun c => (projectCell r c).map (fun v => (c, v))) columns

/-- Embeds `QueryEngine.handleOptions`: first the size gate
(`content.length > 5000` throws `ResultTooLargeError`), then the optional
sort, then the projection of every row to its COLUMNS record. -/
def handleOptions (opts : QOptions) (content : List QRow) :
    Except QErr (List (List (String × Option SVal))) :=
  if 5000 < content.length then .error .resultTooLarge
  else
    match opts.order with
    | none => mapME (projectRow opts.columns) content
    | some ord =>
        match validateOrder ord opts.columns with
        | .error e => .error e
        | .ok ka => mapME (projectRow opts.columns) (sortQRows ka.1 ka.2 content)

/-- Parsing a decimal digit sequence; `none` when a non-digit appears or
the sequence is empty. -/
def digitsVal : List Char → Option Nat
  | [] => none
  | c :: cs =>
    if c.isDigit then
      match cs with
      | [] => some (c.toNat - 48)
      | _ :: _ => (digitsVal cs).map (fun lo => (c.toNat - 48) * 10 ^ cs.length + lo)
    else none

/-- Parsing an unsigned decimal numeral with an optional fraction part, as
`Number(...)` accepts it (`"5."`, `".5"` and `"5.25"` are all numbers);
`none` is `NaN`. -/
def parseUnsignedDec (cs : List Char) : Option Rat :=
  match splitChar '.' cs [] with
  | [ip] => (digitsVal ip.data).map (fun n => (n : Rat))
  | [ip, fp] =>
      if ip.data.isEmpty && fp.data.isEmpty then none
      else if !(ip.data.all Char.isDigit && fp.data.all Char.isDigit) then none
      else
        some ((((digitsVal ip.data).getD 0 : Rat)) +
          ((digitsVal fp.data).getD 0 : Rat) / (10 : Rat) ^ fp.data.length)
  | _ => none

/-- JavaScript string-to-number coercion `Number(str)` restricted to plain
decimal numerals: surrounding whitespace is ignored, the empty string is 0,
an optional sign precedes the digits, anything else is `NaN` (`none`).
Hexadecimal and exponent forms are not modelled; no ingested value uses
them. -/
def jsParseNumber (s : String) : Option Rat :=
  let t := ((s.data.dropWhile Char.isWhitespace).reverse.dropWhile Char.isWhitespace).reverse
  match t with
  | [] => some 0
  | '+' :: r => parseUnsignedDec r
  | '-' :: r => (parseUnsignedDec r).map Neg.neg
  | r => parseUnsignedDec r

/-- `Number(val)` on a row value: a number is itself, a string is parsed;
`none` is `NaN`. -/
def jsNumber : SVal → Option Rat
  | .num q => some q
  | .str s => jsParseNumber s

/-- Rendering a number the way string contexts coerce it (integer values
render without a fraction; the stand-in rendering for non-integers is
injective, which is all the group-key construction relies on). -/
def jsNumToString (q : Rat) : String :=
  if q.den = 1 then toString q.num else toString q

/-- String coercion of a row value, as `Array.prototype.join` applies it. -/
def svalToString : SVal → String
  | .str s => s
  | .num q => jsNumToString q

/-- Rounding to two decimal places, the idealization of
`Number(x.toFixed(2))` on an exact rational (the tie behavior of `toFixed`
on binary doubles is not relied upon anywhere). -/
def round2 (q : Rat) : Rat := round (q * 100) / 100

/-- `new Decimal(val)`: a number converts exactly, a numeric string parses,
and an invalid string throws a plain `Error`. -/
def decimalOf : SVal → Except QErr Rat
  | .num q => .ok q
  | .str s =>
    match jsParseNumber s with
    | some q => .ok q
    | none => .error .other

/-- The element list of `new Set(values)`: insertion order with duplicates
dropped. -/
def jsSetElems : List SVal → List SVal → List SVal
  | [], acc => acc.reverse
  | v :: vs, acc => if acc.contains v then jsSetElems vs acc else jsSetElems vs (v :: acc)

/-- `new Set(values).size`. -/
def jsSetSize (values : List SVal) : Nat := (jsSetElems values []).length

/-- Collecting a list of optional values; `none` as soon as one is `none`. -/
def allSome : List (Option α) → Option (List α)
  | [] => some []
  | none :: _ => none
  | some a :: rest => (allSome rest).map (a :: ·)

/-- Embeds `QueryEngine.computeApplyOperation` (the variant used by the
TRANSFORMATIONS pipeline): the field values of the group are fetched with
`getSectionValue` (throwing on a bad field), then

* AVG sums the values through `Decimal` and divides by the group size
  before rounding to two decimals (the coercion of the exact sum to a
  binary double by `total.toNumber()` is idealized as the identity);
* SUM adds the `Number(...)` coercions, skipping `NaN`, and rounds;
* COUNT is `new Set(values).size`;
* MAX and MIN spread the `Number(...)` coercions into `Math.max`/`Math.min`
  (`NaN` when any value is `NaN`, an infinity when the group is empty);
* any other operator throws `InsightError`. -/
def computeApplyOperation (operator : String) (fieldKey : String) (groupItems : List Sec) :
    Except QErr (Option SVal) :=
  match mapME (fun item => getSectionValue item fieldKey) groupItems with
  | .error e => .error e
  | .ok values =>
    match operator with
    | "AVG" =>
        match mapME decimalOf values with
        | .error e => .error e
        | .ok qs =>
          if values.length = 0 then .ok none
          else .ok (some (.num (round2 (qs.foldl (· + ·) 0 / values.length))))
    | "SUM" =>
        .ok (some (.num (round2 ((values.map jsNumber).foldl (fun sum v => match v with
          | none => sum
          | some q => sum + q) 0))))
    | "COUNT" => .ok (some (.num (jsSetSize values)))
    | "MAX" =>
        match allSome (values.map jsNumber) with
        | none => .ok none
        | some [] => .ok none
        | some (q :: qs) => .ok (some (.num (qs.foldl max q)))
    | "MIN" =>
        match allSome (values.map jsNumber) with
        | none => .ok none
        | some [] => .ok none
        | some (q :: qs) => .ok (some (.num (qs.foldl min q)))
    | _ => .error .insight

/-- One APPLY rule `applyKey: OP: datasetKey` of a shape-checked query. -/
structure ApplyRule where
  applyKey : String
  op : String
  field : String

/-- The TRANSFORMATIONS clause: the GROUP key list and the APPLY rules. -/
structure Transform where
  GROUP : List String
  APPLY : List ApplyRule

/-- The group key of one row: the GROUP field values joined with a bar,
exactly `GROUP.map(key => getSectionValue(item, key)).join("|")`. -/
def groupKeyOf (groupKeys : List String) (s : Sec) : Except QErr String :=
  match mapME (fun k => getSectionValue s k) groupKeys with
  | .error e => .error e
  | .ok vals => .ok (String.intercalate "|" (vals.map svalToString))

/-- Appending a row to its group, creating the group at the end of the map
when the key is new (JavaScript `Map` iterates in insertion order). -/
def addToGroup (groups : List (String × List Sec)) (k : String) (s : Sec) :
    List (String × List Sec) :=
  match groups with
  | [] => [(k, [s])]
  | (k2, items) :: rest =>
    if k2 = k then (k2, items ++ [s]) :: rest else (k2, items) :: addToGroup rest k s

/-- The `forEach` loop of `QueryEngine.groupByKeys` over a Sections
dataset, threading the accumulated group map. -/
def groupByKeysAux (groupKeys : List String) (acc : List (String × List Sec)) :
    List Sec → Except QErr (List (String × List Sec))
  | [] => .ok acc
  | s :: rest =>
      match groupKeyOf groupKeys s with
      | .error e => .error e
      | .ok k => groupByKeysAux groupKeys (addToGroup acc k s) rest

/-- Embeds `QueryEngine.groupByKeys` for a Sections dataset. -/
def groupByKeys (dataset : List Sec) (groupKeys : List String) :
    Except QErr (List (String × List Sec)) :=
  groupByKeysAux groupKeys [] dataset

/-- Embeds `QueryEngine.processGroup` (the TRANSFORMATIONS variant cited by
the claims): the GROUP columns are recovered as strings by splitting the
group key on the bar, and every APPLY rule appends its computed column. -/
def processGroup (groupKey : String) (groupItems : List Sec) (GROUP : List String)
    (APPLY : List ApplyRule) : Except QErr (List (String × Option SVal)) :=
  let parts := splitChar '|' groupKey.data []
  let base := GROUP.enum.map (fun p => (p.2, (parts[p.1]?).map SVal.str))
  match mapME (fun r =>
      (computeApplyOperation r.op r.field groupItems).map (fun v => (r.applyKey, v))) APPLY with
  | .error e => .error e
  | .ok applied => .ok (base ++ applied)

/-- Embeds `QueryEngine.handleTransformations` for a Sections dataset:
group, then one synthetic row per group in map order. -/
def handleTransformations (t : Transform) (dataset : List Sec) :
    Except QErr (List (List (String × Option SVal))) :=
  match groupByKeys dataset t.GROUP with
  | .error e => .error e
  | .ok groups => mapME (fun g => processGroup g.1 g.2 t.GROUP t.APPLY) groups

/-- The row set that reaches `handleOptions`: the WHERE filter result,
turned into synthetic rows by TRANSFORMATIONS when present. -/
def transformStage (w : WFilter) (t : Option Transform) (rows : List Sec) :
    Except QErr (List QRow) :=
  match handleWhere w rows with
  | .error e => .error e
  | .ok kept =>
    match t with
    | none => .ok (kept.map QRow.sec)
    | some tr =>
      match handleTransformations tr kept with
      | .error e => .error e
      | .ok trows => .ok (trows.map QRow.obj)

/-- Embeds `QueryEngine.handleQuery` on a loaded Sections dataset (query
validation and dataset loading already done): filter, optionally
transform, then the OPTIONS stage. -/
def handleQuery (w : WFilter) (t : Option Transform) (opts : QOptions) (rows : List Sec) :
    Except QErr (List (List (String × Option SVal))) :=
  match handleWhere w rows with
  | .error e => .error e
  | .ok kept =>
    match t with
    | none => handleOptions opts (kept.map QRow.sec)
    | some tr =>
      match handleTransformations tr kept with
      | .error e => .error e
      | .ok trows => handleOptions opts (trows.map QRow.obj)

/-- A JSON value as the parsed course files carry it (only the shapes the
ingester distinguishes: strings, numbers and null). -/
inductive JVal where
  | str (s : String)
  | num (q : Rat)
  | null
  deriving DecidableEq, Repr

/-- JavaScript unary plus `+x`: a number is itself, null is 0, a string is
parsed; `none` is `NaN`. -/
def jsPlus : JVal → Option Rat
  | .num q => some q
  | .null => some 0
  | .str s => jsParseNumber s

/-- `x.toString()`: throws a `TypeError` on null (modelled by the `other`
error kind), otherwise renders the value. -/
def jsToString : JVal → Except QErr String
  | .null => .error .other
  | .str s => .ok s
  | .num q => .ok (jsNumToString q)

/-- One element of the `result` array of a course file, with exactly the
properties the ingester reads; `none` is an absent property
(`undefined`). -/
structure CourseField where
  id : Option JVal := none
  Course : Option JVal := none
  Title : Option JVal := none
  Professor : Option JVal := none
  Subject : Option JVal := none
  Avg : Option JVal := none
  Pass : Option JVal := none
  Fail : Option JVal := none
  Audit : Option JVal := none
  Year : Option JVal := none
  Section : Option JVal := none
  deriving DecidableEq, Repr

/-- A Section object as `processSection` constructs it:
`new Section(field.id.toString(), field.Course, field.Title,
field.Professor, field.Subject, +year, field.Avg, field.Pass, field.Fail,
field.Audit)` — only the uuid is coerced to a string and only the year
through unary plus; every other argument is stored as given (null
included). -/
structure IngSection where
  uuid : String
  id : JVal
  title : JVal
  instructor : JVal
  dept : JVal
  year : Option Rat
  avg : JVal
  pass : JVal
  fail : JVal
  audit : JVal
  deriving DecidableEq, Repr

/-- The year substitution of `processJsonData`: 1900 when the Section
property of the element is the string "overall" (strict `===`, hence
case-sensitive and never true for null, numbers or an absent property),
otherwise the declared Year property as is. -/
def substYear (f : CourseField) : Option JVal :=
  if f.Section = some (.str "overall") then some (.num 1900) else f.Year

/-- Embeds `InsightFacade.processSection`: when any of the ten required
values compares `=== undefined` the element is rejected with
`InsightError`; otherwise the Section is constructed, and an exception
during construction (`field.id.toString()` on null) is caught and wrapped
as `InsightError`. -/
def processSection (f : CourseField) (year : Option JVal) : Except QErr IngSection :=
  match f.id, f.Course, f.Title, f.Professor, f.Subject, year,
      f.Avg, f.Pass, f.Fail, f.Audit with
  | some vid, some vCourse, some vTitle, some vProf, some vSubj, some vYear,
      some vAvg, some vPass, some vFail, some vAudit =>
    match jsToString vid with
    | .error _ => .error .insight
    | .ok uuid =>
      .ok ⟨uuid, vCourse, vTitle, vProf, vSubj, jsPlus vYear, vAvg, vPass, vFail, vAudit⟩
  | _, _, _, _, _, _, _, _, _, _ => .error .insight

/-- The loop of `processJsonData` over `parsedContent.result`: elements are
processed in order and the first `InsightError` aborts the file. -/
def processResultList : List CourseField → Except QErr (List IngSection)
  | [] => .ok []
  | f :: fs =>
      match processSection f (substYear f) with
      | .error e => .error e
      | .ok s =>
        match processResultList fs with
        | .error e => .error e
        | .ok rest => .ok (s :: rest)

/-- Embeds `InsightFacade.processJsonData` on one parsed course file:
`none` is a file whose JSON lacks a `result` array (rejected with
`InsightError`), otherwise the element loop runs. -/
def processJsonData (file : Option (List CourseField)) : Except QErr (List IngSection) :=
  match file with
  | none => .error .insight
  | some elems => processResultList elems

/-- The per-file stage of `processSectionKind`: every course file is
processed and the produced sections are collected into one buffer (the
shared `sectionDatasetArray`). -/
def processSectionFiles (files : List (Option (List CourseField))) :
    Except QErr (List IngSection) :=
  match mapME processJsonData files with
  | .error e => .error e
  | .ok ls => .ok ls.flatten

/-- The base64 alphabet value of a character, `none` for a character
outside the alphabet. -/
def base64Val (c : Char) : Option Nat :=
  if 65 ≤ c.toNat ∧ c.toNat ≤ 90 then some (c.toNat - 65)
  else if 97 ≤ c.toNat ∧ c.toNat ≤ 122 then some (c.toNat - 71)
  else if 48 ≤ c.toNat ∧ c.toNat ≤ 57 then some (c.toNat + 4)
  else if c = '+' then some 62
  else if c = '/' then some 63
  else none

/-- Decoding a sextet stream into bytes, four sextets to three bytes, with
a short trailing group contributing its complete bytes. -/
def base64Groups : List Nat → List Nat
  | a :: b :: c :: d :: rest =>
      (a * 4 + b / 16) :: ((b % 16) * 16 + c / 4) :: ((c % 4) * 64 + d) :: base64Groups rest
  | [a, b] => [a * 4 + b / 16]
  | [a, b, c] => [a * 4 + b / 16, (b % 16) * 16 + c / 4]
  | _ => []

/-- Embeds `Buffer.from(str, "base64")` as the Node documentation
specifies it: characters outside the base64 alphabet are silently ignored
and an incomplete trailing group is truncated, so the decoder accepts
every string and never throws. -/
def bufferFromBase64 (s : String) : List Nat :=
  base64Groups (s.data.filterMap base64Val)

/-- Embeds `InsightFacade.isBase64`: the try block decodes with
`Buffer.from(str, "base64")` and returns true; the catch branch would
return false, but the decode it guards is total. -/
def isBase64 (s : String) : Bool :=
  let _ := bufferFromBase64 s
  true

/-- Embeds `InsightFacade.processSectionKind` with the zip layer abstracted
as a parameter: the base64 pre-check rejects with `InsightError` when
`isBase64` is false; otherwise the try block opens the archive (the
`zipParse` parameter stands for `JSZip.loadAsync` plus `validZip`, handing
back one parsed JSON per course file), processes every file, and any error
thrown inside is caught and wrapped as `InsightError` (invalid content). -/
def processSectionKind (zipParse : String → Except QErr (List (Option (List CourseField))))
    (content : String) : Except QErr (List IngSection) :=
  if isBase64 content = false then .error .insight
  else
    match zipParse content with
    | .error _ => .error .insight
    | .ok files =>
      match processSectionFiles files with
      | .error _ => .error .insight
      | .ok l => .ok l

/-- Embeds `InsightFacade.validDatasetID`: an empty id, an id containing an
underscore, or an id whose trim is empty is rejected. -/
def validDatasetId (id : String) : Bool :=
  !(id.data.isEmpty) && !(id.data.contains '_') &&
    !(((id.data.dropWhile Char.isWhitespace).reverse.dropWhile Char.isWhitespace).isEmpty)

/-- The uppercase hexadecimal digit of a value below 16, as
`encodeURIComponent` emits it. -/
def hexDigit (n : Nat) : Char :=
  if n < 10 then Char.ofNat (48 + n) else Char.ofNat (55 + n)

/-- The value of a hexadecimal digit (either case, as `decodeURIComponent`
accepts); `none` for a non-digit. -/
def hexVal (c : Char) : Option Nat :=
  if 48 ≤ c.toNat ∧ c.toNat ≤ 57 then some (c.toNat - 48)
  else if 65 ≤ c.toNat ∧ c.toNat ≤ 70 then some (c.toNat - 55)
  else if 97 ≤ c.toNat ∧ c.toNat ≤ 102 then some (c.toNat - 87)
  else none

/-- The UTF-8 bytes of a code point (one to four bytes over the standard
ranges). -/
def utf8Bytes (n : Nat) : List Nat :=
  if n < 0x80 then [n]
  else if n < 0x800 then [0xC0 + n / 0x40, 0x80 + n % 0x40]
  else if n < 0x10000 then
    [0xE0 + n / 0x1000, 0x80 + n / 0x40 % 0x40, 0x80 + n % 0x40]
  else
    [0xF0 + n / 0x40000, 0x80 + n / 0x1000 % 0x40, 0x80 + n / 0x40 % 0x40, 0x80 + n % 0x40]

/-- The characters `encodeURIComponent` leaves unescaped: ASCII letters,
digits, and `- _ . ! ~ * ( )` together with the apostrophe. -/
def isUnreservedChar (c : Char) : Bool :=
  (65 ≤ c.toNat && c.toNat ≤ 90) || (97 ≤ c.toNat && c.toNat ≤ 122) ||
  (48 ≤ c.toNat && c.toNat ≤ 57) ||
  c ∈ ['-', '_', '.', '!', '~', '*', Char.ofNat 39, '(', ')']

/-- The percent escape of one byte: a percent sign and two uppercase
hexadecimal digits. -/
def percentEscape (b : Nat) : List Char :=
  ['%', hexDigit (b / 16), hexDigit (b % 16)]

/-- The encoding of one character: kept literally when unreserved,
otherwise every UTF-8 byte is percent escaped. -/
def encodeChar (c : Char) : List Char :=
  if isUnreservedChar c then [c]
  else (utf8Bytes c.toNat).flatMap percentEscape

/-- Embeds `DatasetProcessor.encodeDatasetId`, that is
`encodeURIComponent(id)`. -/
def encodeDatasetId (id : String) : String :=
  String.mk (id.data.flatMap encodeChar)

/-- Whether a byte is a UTF-8 continuation byte. -/
def contByte (b : Nat) : Bool := 0x80 ≤ b && b < 0xC0

/-- One percent-escape cluster of the `decodeURIComponent` scan: the
characters after a percent sign are read as one to four escaped bytes that
must form a valid UTF-8 encoding of a code point (continuation bytes in
range, no overlong form, no surrogate, at most 0x10FFFF); the decoded code
point and the remaining characters are returned, and `none` models the
`URIError` thrown on anything malformed. -/
def decodeEscape (cs : List Char) : Option (Nat × List Char) :=
  match cs with
  | h1 :: h2 :: cs2 =>
    match hexVal h1, hexVal h2 with
    | some a1, some a2 =>
      let b1 := a1 * 16 + a2
      if b1 < 0x80 then some (b1, cs2)
      else if b1 < 0xC2 then none
      else if b1 < 0xE0 then
        match cs2 with
        | '%' :: g1 :: g2 :: cs3 =>
          match hexVal g1, hexVal g2 with
          | some a3, some a4 =>
            let b2 := a3 * 16 + a4
            if contByte b2 then
              some ((b1 - 0xC0) * 0x40 + (b2 - 0x80), cs3)
            else none
          | _, _ => none
        | _ => none
      else if b1 < 0xF0 then
        match cs2 with
        | '%' :: g1 :: g2 :: '%' :: g3 :: g4 :: cs3 =>
          match hexVal g1, hexVal g2, hexVal g3, hexVal g4 with
          | some a3, some a4, some a5, some a6 =>
            let b2 := a3 * 16 + a4
            let b3 := a5 * 16 + a6
            let n := (b1 - 0xE0) * 0x1000 + (b2 - 0x80) * 0x40 + (b3 - 0x80)
            if contByte b2 && contByte b3 &&
                decide (0x800 ≤ n) && !(decide (0xD800 ≤ n) && decide (n < 0xE000)) then
              some (n, cs3)
            else none
          | _, _, _, _ => none
        | _ => none
      else if b1 < 0xF5 then
        match cs2 with
        | '%' :: g1 :: g2 :: '%' :: g3 :: g4 :: '%' :: g5 :: g6 :: cs3 =>
          match hexVal g1, hexVal g2, hexVal g3, hexVal g4, hexVal g5, hexVal g6 with
          | some a3, some a4, some a5, some a6, some a7, some a8 =>
            let b2 := a3 * 16 + a4
            let b3 := a5 * 16 + a6
            let b4 := a7 * 16 + a8
            let n := (b1 - 0xF0) * 0x40000 + (b2 - 0x80) * 0x1000 +
              (b3 - 0x80) * 0x40 + (b4 - 0x80)
            if contByte b2 && contByte b3 && contByte b4 &&
                decide (0x10000 ≤ n) && decide (n < 0x110000) then
              some (n, cs3)
            else none
          | _, _, _, _, _, _ => none
        | _ => none
      else none
    | _, _ => none
  | _ => none


/-- The scan of `decodeURIComponent`, with explicit fuel so the recursion
is structural: literal characters are copied and a percent sign starts an
escape cluster read by `decodeEscape`.  Every step consumes at least one
input character while spending exactly one unit of fuel, so the wrapper
below, which passes the input length, never exhausts it. -/
def decodeUriCharsF : Nat → List Char → Option (List Char)
  | _, [] => some []
  | 0, _ :: _ => none
  | fuel + 1, c :: cs =>
    if c = '%' then
      match decodeEscape cs with
      | some (n, cs3) => (decodeUriCharsF fuel cs3).map (Char.ofNat n :: ·)
      | none => none
    else (decodeUriCharsF fuel cs).map (c :: ·)

/-- The `decodeURIComponent` scan at full fuel. -/
def decodeUriChars (l : List Char) : Option (List Char) :=
  decodeUriCharsF l.length l

/-- Embeds `DatasetProcessor.decodeDatasetId`, that is
`decodeURIComponent(encodedId)`; `none` is the `URIError` thrown on a
malformed input. -/
def decodeDatasetId (s : String) : Option String :=
  (decodeUriChars s.data).map String.mk

theorem filterE_ok_mem {p : α → Except ε Bool} :
    ∀ {xs res : List α}, filterE p xs = .ok res →
      ∀ a, a ∈ res ↔ a ∈ xs ∧ p a = .ok true := by
  intro xs
  induction xs with
  | nil =>
    intro res h a
    simp [filterE] at h
    subst h
    simp
  | cons x xs ih =>
    intro res h a
    rw [filterE] at h
    cases hpx : p x with
    | error e => rw [hpx] at h; cases h
    | ok b =>
      rw [hpx] at h
      cases hrest : filterE p xs with
      | error e => rw [hrest] at h; cases h
      | ok rest =>
        rw [hrest] at h
        cases b with
        | true =>
          simp at h
          subst h
          constructor
          · intro hmem
            rcases List.mem_cons.mp hmem with rfl | ha
            · exact ⟨List.mem_cons_self _ _, hpx⟩
            · have := (ih hrest a).mp ha
              exact ⟨List.mem_cons_of_mem _ this.1, this.2⟩
          · rintro ⟨hmem, hpa⟩
            rcases List.mem_cons.mp hmem with rfl | hmem2
            · exact List.mem_cons_self _ _
            · exact List.mem_cons_of_mem _ ((ih hrest a).mpr ⟨hmem2, hpa⟩)
        | false =>
          simp at h
          subst h
          rw [ih hrest a]
          constructor
          · rintro ⟨hmem, hpa⟩
            exact ⟨List.mem_cons_of_mem _ hmem, hpa⟩
          · rintro ⟨hmem, hpa⟩
            rcases List.mem_cons.mp hmem with rfl | hmem2
            · rw [hpx] at hpa; cases hpa
            · exact ⟨hmem2, hpa⟩

theorem handleWhere_ok_mem {w : WFilter} {rows kept : List Sec}
    (h : handleWhere w rows = .ok kept) (s : Sec) :
    s ∈ kept ↔ s ∈ rows ∧ (w = .empty ∨ evaluateCondition w s = .ok true) := by
  cases w
  case empty =>
    simp [handleWhere] at h
    subst h
    simp
  all_goals (
    simp only [handleWhere] at h
    cases rows with
    | nil =>
      cases h
      simp
    | cons r rs =>
      rw [filterE_ok_mem h s]
      simp)

theorem mapME_ok_length {f : α → Except ε β} :
    ∀ {xs : List α} {res : List β}, mapME f xs = .ok res → res.length = xs.length := by
  intro xs
  induction xs with
  | nil => intro res h; cases h; rfl
  | cons x xs ih =>
    intro res h
    rw [mapME] at h
    cases hfx : f x with
    | error e => rw [hfx] at h; cases h
    | ok y =>
      rw [hfx] at h
      cases hrest : mapME f xs with
      | error e => rw [hrest] at h; cases h
      | ok ys =>
        rw [hrest] at h
        cases h
        simp [ih hrest]

theorem handleOptions_ok_length {opts : QOptions} {content : List QRow}
    {out : List (List (String × Option SVal))}
    (h : handleOptions opts content = .ok out) : out.length = content.length := by
  rw [handleOptions] at h
  split at h
  · cases h
  · split at h
    · exact mapME_ok_length h
    · split at h
      · cases h
      · have := mapME_ok_length h
        rw [this, sortQRows, List.length_mergeSort]

/-- C1: for every valid query without TRANSFORMATIONS that the engine
answers successfully, the WHERE stage keeps exactly the source rows on
which the WHERE tree evaluates to true (an empty WHERE keeps every row),
and the answer has one output record per kept row. -/
theorem whereStage_sound_complete (w : WFilter) (opts : QOptions) (rows : List Sec)
    (out : List (List (String × Option SVal)))
    (h : handleQuery w none opts rows = .ok out) (s : Sec) :
    ∃ kept, handleWhere w rows = .ok kept ∧
      (s ∈ kept ↔ s ∈ rows ∧ (w = .empty ∨ evaluateCondition w s = .ok true)) ∧
      out.length = kept.length := by
  rw [handleQuery] at h
  cases hk : handleWhere w rows with
  | error e => rw [hk] at h; cases h
  | ok kept =>
    rw [hk] at h
    exact ⟨kept, rfl, handleWhere_ok_mem hk s, by
      rw [handleOptions_ok_length h, List.length_map]⟩

/-- Witness for C1 at a concrete query and dataset. -/
theorem whereStage_sound_complete_witness :
    ∃ kept, handleWhere (.gt "sections_avg" 90)
        [⟨"1", "310", "t", "i", "cpsc", 2015, 95, 1, 0, 0⟩,
         ⟨"2", "310", "t", "i", "cpsc", 2015, 85, 1, 0, 0⟩] = .ok kept ∧
      ((⟨"1", "310", "t", "i", "cpsc", 2015, 95, 1, 0, 0⟩ : Sec) ∈ kept ↔
        (⟨"1", "310", "t", "i", "cpsc", 2015, 95, 1, 0, 0⟩ : Sec) ∈
          [⟨"1", "310", "t", "i", "cpsc", 2015, 95, 1, 0, 0⟩,
           ⟨"2", "310", "t", "i", "cpsc", 2015, 85, 1, 0, 0⟩] ∧
          ((WFilter.gt "sections_avg" 90) = .empty ∨
            evaluateCondition (.gt "sections_avg" 90)
              ⟨"1", "310", "t", "i", "cpsc", 2015, 95, 1, 0, 0⟩ = .ok true)) ∧
      [[("sections_avg", some (SVal.num 95))]].length = kept.length :=
  whereStage_sound_complete (.gt "sections_avg" 90) ⟨["sections_avg"], none⟩
    [⟨"1", "310", "t", "i", "cpsc", 2015, 95, 1, 0, 0⟩,
     ⟨"2", "310", "t", "i", "cpsc", 2015, 85, 1, 0, 0⟩]
    [[("sections_avg", some (SVal.num 95))]] (by decide)
    ⟨"1", "310", "t", "i", "cpsc", 2015, 95, 1, 0, 0⟩

theorem getSectionValue_error {s : Sec} {key : String} {e : QErr}
    (h : getSectionValue s key = .error e) : e = .insight := by
  rw [getSectionValue] at h
  split at h <;> (cases h; try rfl)

theorem handleISComparator_error {cv : SVal} {pat : String} {e : QErr}
    (h : handleISComparator cv pat = .error e) : e = .insight := by
  rw [handleISComparator.eq_def] at h
  split at h
  · cases h; rfl
  · split at h
    · cases h; rfl
    · cases h

mutual

theorem evaluateCondition_error (w : WFilter) (s : Sec) (e : QErr)
    (h : evaluateCondition w s = .error e) : e = .insight := by
  cases w with
  | empty => simp only [evaluateCondition] at h; cases h; rfl
  | and fs => simp only [evaluateCondition] at h; exact evalEvery_error fs s e h
  | or fs => simp only [evaluateCondition] at h; exact evalSome_error fs s e h
  | not f =>
    simp only [evaluateCondition] at h
    cases hf : evaluateCondition f s with
    | error e2 =>
      rw [hf] at h
      simp at h
      subst h
      exact evaluateCondition_error f s e2 hf
    | ok b => rw [hf] at h; simp at h
  | gt key v =>
    simp only [evaluateCondition] at h
    cases hgs : getSectionValue s key with
    | error e2 =>
      rw [hgs] at h; simp at h; subst h
      exact getSectionValue_error hgs
    | ok v2 =>
      rw [hgs] at h
      cases v2 with
      | num q => simp at h
      | str t => simp at h; subst h; rfl
  | lt key v =>
    simp only [evaluateCondition] at h
    cases hgs : getSectionValue s key with
    | error e2 =>
      rw [hgs] at h; simp at h; subst h
      exact getSectionValue_error hgs
    | ok v2 =>
      rw [hgs] at h
      cases v2 with
      | num q => simp at h
      | str t => simp at h; subst h; rfl
  | eq key v =>
    simp only [evaluateCondition] at h
    cases hgs : getSectionValue s key with
    | error e2 =>
      rw [hgs] at h; simp at h; subst h
      exact getSectionValue_error hgs
    | ok v2 =>
      rw [hgs] at h
      cases v2 with
      | num q => simp at h
      | str t => simp at h; subst h; rfl
  | is key pat =>
    simp only [evaluateCondition] at h
    cases hgs : getSectionValue s key with
    | error e2 =>
      rw [hgs] at h; simp at h; subst h
      exact getSectionValue_error hgs
    | ok v2 =>
      rw [hgs] at h
      exact handleISComparator_error h
termination_by structural w

theorem evalEvery_error (fs : List WFilter) (s : Sec) (e : QErr)
    (h : evalEvery fs s = .error e) : e = .insight := by
  cases fs with
  | nil => simp only [evalEvery] at h; cases h
  | cons f fs2 =>
    simp only [evalEvery] at h
    cases hf : evaluateCondition f s with
    | error e2 =>
      rw [hf] at h; simp at h; subst h
      exact evaluateCondition_error f s e2 hf
    | ok b =>
      rw [hf] at h
      cases b with
      | true => exact evalEvery_error fs2 s e h
      | false => simp at h
termination_by structural fs

theorem evalSome_error (fs : List WFilter) (s : Sec) (e : QErr)
    (h : evalSome fs s = .error e) : e = .insight := by
  cases fs with
  | nil => simp only [evalSome] at h; cases h
  | cons f fs2 =>
    simp only [evalSome] at h
    cases hf : evaluateCondition f s with
    | error e2 =>
      rw [hf] at h; simp at h; subst h
      exact evaluateCondition_error f s e2 hf
    | ok b =>
      cases b with
      | true => rw [hf] at h; simp at h
      | false => rw [hf] at h; exact evalSome_error fs2 s e h
termination_by structural fs

end

theorem filterE_error {p : α → Except QErr Bool}
    (hp : ∀ a e, p a = .error e → e = .insight) :
    ∀ {xs : List α} {e : QErr}, filterE p xs = .error e → e = .insight := by
  intro xs
  induction xs with
  | nil => intro e h; cases h
  | cons x xs ih =>
    intro e h
    rw [filterE] at h
    cases hpx : p x with
    | error e2 => rw [hpx] at h; cases h; exact hp x _ hpx
    | ok b =>
      rw [hpx] at h
      cases hrest : filterE p xs with
      | error e2 => rw [hrest] at h; cases h; exact ih hrest
      | ok rest => rw [hrest] at h; cases h

theorem handleWhere_error {w : WFilter} {rows : List Sec} {e : QErr}
    (h : handleWhere w rows = .error e) : e = .insight := by
  cases w
  case empty => cases h
  all_goals (
    simp only [handleWhere] at h
    cases rows with
    | nil => cases h
    | cons r rs =>
        exact filterE_error (fun a e2 h2 => evaluateCondition_error _ a e2 h2) h)

theorem mapME_error {f : α → Except QErr β}
    (hf : ∀ a e, f a = .error e → e ≠ .resultTooLarge) :
    ∀ {xs : List α} {e : QErr}, mapME f xs = .error e → e ≠ .resultTooLarge := by
  intro xs
  induction xs with
  | nil => intro e h; cases h
  | cons x xs ih =>
    intro e h
    rw [mapME] at h
    cases hfx : f x with
    | error e2 => rw [hfx] at h; cases h; exact hf x _ hfx
    | ok y =>
      rw [hfx] at h
      cases hrest : mapME f xs with
      | error e2 => rw [hrest] at h; cases h; exact ih hrest
      | ok ys => rw [hrest] at h; cases h

theorem except_map_error {x : Except QErr α} {g : α → β} {e : QErr}
    (h : x.map g = .error e) : x = .error e := by
  cases x with
  | error e2 => cases h; rfl
  | ok a => cases h

theorem decimalOf_error {v : SVal} {e : QErr} (h : decimalOf v = .error e) :
    e ≠ .resultTooLarge := by
  rw [decimalOf.eq_def] at h
  split at h
  · cases h
  · split at h <;> cases h
    simp

theorem groupKeyOf_error {groupKeys : List String} {s : Sec} {e : QErr}
    (h : groupKeyOf groupKeys s = .error e) : e ≠ .resultTooLarge := by
  rw [groupKeyOf] at h
  cases hm : mapME (fun k => getSectionValue s k) groupKeys with
  | error e2 =>
    rw [hm] at h; cases h
    exact mapME_error (fun a e3 h3 => by rw [getSectionValue_error h3]; simp) hm
  | ok vals => rw [hm] at h; cases h

theorem computeApplyOperation_error {operator fieldKey : String} {groupItems : List Sec}
    {e : QErr} (h : computeApplyOperation operator fieldKey groupItems = .error e) :
    e ≠ .resultTooLarge := by
  rw [computeApplyOperation.eq_def] at h
  split at h
  · rename_i e2 heq
    cases h
    exact mapME_error (fun a e3 h3 => by rw [getSectionValue_error h3]; simp) heq
  · rename_i values heq
    split at h
    · split at h
      · rename_i e2 heq2
        cases h
        exact mapME_error (fun a e3 h3 => decimalOf_error h3) heq2
      · split at h <;> cases h
    · cases h
    · cases h
    · split at h <;> cases h
    · split at h <;> cases h
    · cases h; simp

theorem processGroup_error {groupKey : String} {groupItems : List Sec}
    {GROUP : List String} {APPLY : List ApplyRule} {e : QErr}
    (h : processGroup groupKey groupItems GROUP APPLY = .error e) :
    e ≠ .resultTooLarge := by
  rw [processGroup] at h
  cases hm : mapME (fun r =>
      (computeApplyOperation r.op r.field groupItems).map (fun v => (r.applyKey, v))) APPLY with
  | error e2 =>
    rw [hm] at h; cases h
    exact mapME_error
      (fun a e3 h3 => computeApplyOperation_error (except_map_error h3)) hm
  | ok applied => rw [hm] at h; cases h

theorem groupByKeysAux_error {groupKeys : List String} :
    ∀ {acc : List (String × List Sec)} {rows : List Sec} {e : QErr},
      groupByKeysAux groupKeys acc rows = .error e → e ≠ .resultTooLarge := by
  intro acc rows
  induction rows generalizing acc with
  | nil => intro e h; cases h
  | cons s rest ih =>
    intro e h
    rw [groupByKeysAux] at h
    cases hk : groupKeyOf groupKeys s with
    | error e2 => rw [hk] at h; cases h; exact groupKeyOf_error hk
    | ok k => rw [hk] at h; exact ih h

theorem handleTransformations_error {t : Transform} {dataset : List Sec} {e : QErr}
    (h : handleTransformations t dataset = .error e) : e ≠ .resultTooLarge := by
  rw [handleTransformations] at h
  cases hg : groupByKeys dataset t.GROUP with
  | error e2 => rw [hg] at h; cases h; exact groupByKeysAux_error hg
  | ok groups =>
    rw [hg] at h
    exact mapME_error (fun g e3 h3 => processGroup_error h3) h

theorem transformStage_error {w : WFilter} {t : Option Transform} {rows : List Sec}
    {e : QErr} (h : transformStage w t rows = .error e) : e ≠ .resultTooLarge := by
  rw [transformStage] at h
  cases hk : handleWhere w rows with
  | error e2 => rw [hk] at h; cases h; rw [handleWhere_error hk]; simp
  | ok kept =>
    rw [hk] at h
    cases t with
    | none => cases h
    | some tr =>
      simp only at h
      cases ht : handleTransformations tr kept with
      | error e2 => rw [ht] at h; cases h; exact handleTransformations_error ht
      | ok trows => rw [ht] at h; cases h

theorem checkOrderKeys_error {keys columns : List String} {e : QErr}
    (h : checkOrderKeys keys columns = .error e) : e = .insight := by
  induction keys with
  | nil => cases h
  | cons k ks ih =>
    rw [checkOrderKeys] at h
    split at h
    · exact ih h
    · cases h; rfl

theorem validateOrder_error {ord : QOrder} {columns : List String} {e : QErr}
    (h : validateOrder ord columns = .error e) : e = .insight := by
  rw [validateOrder.eq_def] at h
  split at h
  · split at h
    · cases h; exact checkOrderKeys_error (by assumption)
    · cases h
  · split at h
    · split at h
      · cases h; exact checkOrderKeys_error (by assumption)
      · cases h
    · cases h; rfl

theorem projectCell_error {r : QRow} {column : String} {e : QErr}
    (h : projectCell r column = .error e) : e = .insight := by
  rw [projectCell.eq_def] at h
  split at h
  · exact getSectionValue_error (except_map_error h)
  · cases h

theorem projectRow_error {columns : List String} {r : QRow} {e : QErr}
    (h : projectRow columns r = .error e) : e ≠ .resultTooLarge := by
  rw [projectRow] at h
  exact mapME_error
    (fun c e2 h2 => by rw [projectCell_error (except_map_error h2)]; simp) h

/-- The size gate of `handleOptions` is decisive: the OPTIONS stage fails
with `ResultTooLargeError` exactly when more than 5000 rows reach it; no
later step of the stage can produce that error kind. -/
theorem handleOptions_rtl (opts : QOptions) (content : List QRow) :
    handleOptions opts content = .error .resultTooLarge ↔ 5000 < content.length := by
  constructor
  · intro h
    by_contra hlen
    rw [handleOptions, if_neg hlen] at h
    split at h
    · exact mapME_error (fun r e2 h2 => projectRow_error h2) h rfl
    · split at h
      · cases h; exact absurd (validateOrder_error (by assumption)) (by simp)
      · exact mapME_error (fun r e2 h2 => projectRow_error h2) h rfl
  · intro hlen
    rw [handleOptions, if_pos hlen]

theorem handleQuery_eq_stage (w : WFilter) (t : Option Transform) (opts : QOptions)
    (rows : List Sec) :
    handleQuery w t opts rows = (transformStage w t rows).bind (handleOptions opts) := by
  rw [handleQuery, transformStage]
  cases handleWhere w rows with
  | error e => rfl
  | ok kept =>
    cases t with
    | none => rfl
    | some tr =>
      simp only
      cases handleTransformations tr kept with
      | error e => rfl
      | ok trows => rfl

theorem mapME_map_ok {f : β → Except ε γ} {g : α → β} {h2 : α → γ}
    (hfg : ∀ a, f (g a) = .ok (h2 a)) : ∀ l : List α, mapME f (l.map g) = .ok (l.map h2) := by
  intro l
  induction l with
  | nil => rfl
  | cons x xs ih =>
    simp only [List.map_cons, mapME]
    rw [hfg x, ih]

/-- C2: the pipeline fails with `ResultTooLargeError` exactly when the row
set reaching the OPTIONS stage (the WHERE result, transformed when
TRANSFORMATIONS is present) has more than 5000 rows; the gate sits before
the sort and the projection, and a result of exactly 5000 rows passes it
and is answered. -/
theorem resultTooLarge_characterization :
    (∀ (w : WFilter) (t : Option Transform) (opts : QOptions) (rows : List Sec),
      handleQuery w t opts rows = .error .resultTooLarge ↔
        ∃ mid, transformStage w t rows = .ok mid ∧ 5000 < mid.length) ∧
    (∀ rows : List Sec, rows.length = 5000 →
      handleOptions ⟨["sections_avg"], none⟩ (rows.map QRow.sec) =
        .ok (rows.map fun s => [("sections_avg", some (SVal.num s.avg))])) := by
  constructor
  · intro w t opts rows
    rw [handleQuery_eq_stage]
    constructor
    · intro h
      cases hs : transformStage w t rows with
      | error e =>
        rw [hs] at h
        simp [Except.bind] at h
        exact absurd (h ▸ rfl) (transformStage_error hs)
      | ok mid =>
        rw [hs] at h
        simp [Except.bind] at h
        exact ⟨mid, rfl, (handleOptions_rtl opts mid).mp h⟩
    · rintro ⟨mid, hmid, hlen⟩
      rw [hmid]
      simp [Except.bind]
      exact (handleOptions_rtl opts mid).mpr hlen
  · intro rows hlen
    rw [handleOptions, if_neg (by simp [hlen])]
    show mapME (projectRow ["sections_avg"]) (rows.map QRow.sec) =
      .ok (rows.map fun s => [("sections_avg", some (SVal.num s.avg))])
    exact @mapME_map_ok _ _ _ _ (projectRow ["sections_avg"]) QRow.sec
      (fun s => [("sections_avg", some (SVal.num s.avg))]) (fun s => rfl) rows

/-- Witness for C2: a five-thousand-row content passes the size gate and is
projected. -/
theorem resultTooLarge_characterization_witness :
    handleOptions ⟨["sections_avg"], none⟩
        ((List.replicate 5000 (⟨"1", "310", "t", "i", "cpsc", 2015, 95, 1, 0, 0⟩ : Sec)).map
          QRow.sec) =
      .ok ((List.replicate 5000 (⟨"1", "310", "t", "i", "cpsc", 2015, 95, 1, 0, 0⟩ : Sec)).map
        fun s => [("sections_avg", some (SVal.num s.avg))]) :=
  resultTooLarge_characterization.2
    (List.replicate 5000 ⟨"1", "310", "t", "i", "cpsc", 2015, 95, 1, 0, 0⟩)
    (List.length_replicate 5000 _)

theorem jsSetElems_length (l : List SVal) :
    ∀ acc : List SVal, acc.Nodup →
      (jsSetElems l acc).length = (acc.toFinset ∪ l.toFinset).card := by
  induction l with
  | nil =>
    intro acc hnd
    simp [jsSetElems, List.toFinset_card_of_nodup hnd]
  | cons v vs ih =>
    intro acc hnd
    rw [jsSetElems]
    by_cases hv : acc.contains v
    · rw [if_pos hv, ih acc hnd]
      have hvmem : v ∈ acc.toFinset := by
        simp only [List.mem_toFinset]
        exact List.mem_of_elem_eq_true hv
      rw [List.toFinset_cons, Finset.union_insert, Finset.insert_eq_self.mpr]
      exact Finset.mem_union_left _ hvmem
    · rw [if_neg hv]
      have hvnot : v ∉ acc := fun hm => hv (List.elem_eq_true_of_mem hm)
      rw [ih (v :: acc) (List.nodup_cons.mpr ⟨hvnot, hnd⟩)]
      rw [List.toFinset_cons, List.toFinset_cons, Finset.insert_union, Finset.union_insert]

theorem jsSetSize_card (l : List SVal) : jsSetSize l = l.toFinset.card := by
  rw [jsSetSize, jsSetElems_length l [] List.nodup_nil]
  simp

/-- C7: a COUNT apply rule over a group yields the number of distinct
values of the field among the rows of the group (one fetched value per
row, duplicates counted once), not the number of rows. -/
theorem countApply_distinct (fieldKey : String) (groupItems : List Sec)
    (r : Option SVal) (h : computeApplyOperation "COUNT" fieldKey groupItems = .ok r) :
    ∃ values, mapME (fun item => getSectionValue item fieldKey) groupItems = .ok values ∧
      r = some (.num values.toFinset.card) ∧ values.length = groupItems.length := by
  rw [computeApplyOperation] at h
  cases hm : mapME (fun item => getSectionValue item fieldKey) groupItems with
  | error e => rw [hm] at h; cases h
  | ok values =>
    rw [hm] at h
    simp at h
    exact ⟨values, rfl, by rw [← h, jsSetSize_card], mapME_ok_length hm⟩

/-- Witness for C7 at a group of three rows carrying two distinct dept
values: COUNT is 2, not 3. -/
theorem countApply_distinct_witness :
    ∃ values, mapME (fun item => getSectionValue item "sections_dept")
        [⟨"1", "310", "t", "i", "cpsc", 2015, 95, 1, 0, 0⟩,
         ⟨"2", "310", "t", "i", "cpsc", 2015, 85, 1, 0, 0⟩,
         ⟨"3", "310", "t", "i", "math", 2015, 75, 1, 0, 0⟩] = .ok values ∧
      (some (.num 2) : Option SVal) = some (.num values.toFinset.card) ∧
      values.length =
        ([⟨"1", "310", "t", "i", "cpsc", 2015, 95, 1, 0, 0⟩,
          ⟨"2", "310", "t", "i", "cpsc", 2015, 85, 1, 0, 0⟩,
          ⟨"3", "310", "t", "i", "math", 2015, 75, 1, 0, 0⟩] : List Sec).length :=
  countApply_distinct "sections_dept"
    [⟨"1", "310", "t", "i", "cpsc", 2015, 95, 1, 0, 0⟩,
     ⟨"2", "310", "t", "i", "cpsc", 2015, 85, 1, 0, 0⟩,
     ⟨"3", "310", "t", "i", "math", 2015, 75, 1, 0, 0⟩]
    (some (.num 2)) (by decide)

theorem processSection_ok_year {f : CourseField} {year : Option JVal} {s : IngSection}
    (h : processSection f year = .ok s) : ∃ vy, year = some vy ∧ s.year = jsPlus vy := by
  rw [processSection.eq_def] at h
  split at h
  · split at h
    · cases h
    · cases h
      exact ⟨_, rfl, rfl⟩
  · cases h

/-- A course element whose Section property is not "overall" but whose
declared Year is 1900. -/
def declared1900Field : CourseField :=
  { id := some (.str "123"), Course := some (.str "310"), Title := some (.str "t"),
    Professor := some (.str "p"), Subject := some (.str "cpsc"),
    Avg := some (.num 90), Pass := some (.num 10), Fail := some (.num 0),
    Audit := some (.num 0), Year := some (.num 1900), Section := some (.str "002") }

/-- Counterexample to C4 as stated: an element whose Section property
differs from "overall" still produces a Section whose year field is 1900,
because its declared Year is 1900 — so a 1900 year does not imply an
overall element, and the biconditional fails. -/
theorem overallYear_counterexample :
    declared1900Field.Section ≠ some (JVal.str "overall") ∧
    processSection declared1900Field (substYear declared1900Field) =
      .ok ⟨"123", .str "310", .str "t", .str "p", .str "cpsc", some 1900,
        .num 90, .num 10, .num 0, .num 0⟩ := by
  constructor
  · decide
  · decide

/-- C4 (amended): the ingester substitutes 1900 exactly when the Section
property of the element is the literal string "overall" (case-sensitive);
an element whose Section property differs keeps its declared numeric Year,
which may itself be 1900. -/
theorem overallYear_amended (f : CourseField) (s : IngSection)
    (h : processSection f (substYear f) = .ok s) :
    (f.Section = some (JVal.str "overall") → s.year = some 1900) ∧
    (f.Section ≠ some (JVal.str "overall") →
      ∀ q : Rat, f.Year = some (JVal.num q) → s.year = some q) := by
  obtain ⟨vy, hvy, hyear⟩ := processSection_ok_year h
  constructor
  · intro hov
    rw [substYear, if_pos hov] at hvy
    cases hvy
    rw [hyear]
    rfl
  · intro hov q hq
    rw [substYear, if_neg hov, hq] at hvy
    cases hvy
    rw [hyear]
    rfl

/-- Witness for C4 (amended) at an overall element and at a plain element
with a declared year. -/
theorem overallYear_amended_witness :
    (({ id := some (.str "9"), Course := some (.str "110"), Title := some (.str "t"),
        Professor := some (.str "p"), Subject := some (.str "cpsc"),
        Avg := some (.num 80), Pass := some (.num 5), Fail := some (.num 1),
        Audit := some (.num 0), Year := some (.num 2015),
        Section := some (.str "overall") } : CourseField).Section =
          some (JVal.str "overall") →
      (⟨"9", .str "110", .str "t", .str "p", .str "cpsc", some 1900,
        .num 80, .num 5, .num 1, .num 0⟩ : IngSection).year = some 1900) ∧
    (({ id := some (.str "9"), Course := some (.str "110"), Title := some (.str "t"),
        Professor := some (.str "p"), Subject := some (.str "cpsc"),
        Avg := some (.num 80), Pass := some (.num 5), Fail := some (.num 1),
        Audit := some (.num 0), Year := some (.num 2015),
        Section := some (.str "overall") } : CourseField).Section ≠
          some (JVal.str "overall") →
      ∀ q : Rat,
        ({ id := some (.str "9"), Course := some (.str "110"), Title := some (.str "t"),
           Professor := some (.str "p"), Subject := some (.str "cpsc"),
           Avg := some (.num 80), Pass := some (.num 5), Fail := some (.num 1),
           Audit := some (.num 0), Year := some (.num 2015),
           Section := some (.str "overall") } : CourseField).Year = some (JVal.num q) →
        (⟨"9", .str "110", .str "t", .str "p", .str "cpsc", some 1900,
          .num 80, .num 5, .num 1, .num 0⟩ : IngSection).year = some q) :=
  overallYear_amended _ _ (by decide)

theorem processSection_error {f : CourseField} {year : Option JVal} {e : QErr}
    (h : processSection f year = .error e) : e = .insight := by
  rw [processSection.eq_def] at h
  split at h
  · split at h
    · cases h; rfl
    · cases h
  · cases h; rfl

/-- Whether some required value of the element compares `=== undefined`
(the year slot being the substituted year). -/
def missingRequired (f : CourseField) : Bool :=
  f.id.isNone || f.Course.isNone || f.Title.isNone || f.Professor.isNone ||
  f.Subject.isNone || (substYear f).isNone || f.Avg.isNone || f.Pass.isNone ||
  f.Fail.isNone || f.Audit.isNone

theorem processSection_missing {f : CourseField}
    (hm : missingRequired f = true) :
    processSection f (substYear f) = .error .insight := by
  rw [processSection.eq_def]
  split
  · rename_i heq0 heq1 heq2 heq3 heq4 heq5 heq6 heq7 heq8 heq9
    rw [missingRequired] at hm
    simp only [heq0, heq1, heq2, heq3, heq4, heq5, heq6, heq7, heq8, heq9] at hm
    simp at hm
  · rfl

theorem processSection_nullId {f : CourseField} {year : Option JVal}
    (hid : f.id = some JVal.null) :
    processSection f year = .error .insight := by
  rw [processSection.eq_def]
  split
  · rename_i heq1 heq2 heq3 heq4 heq5 heq6 heq7 heq8 heq9
    rw [hid] at heq1
    cases heq1
    rfl
  · rfl

theorem processSection_ok_of_present {f : CourseField}
    (hm : missingRequired f = false) (hid : f.id ≠ some JVal.null) :
    ∃ s, processSection f (substYear f) = .ok s := by
  rw [missingRequired] at hm
  simp only [Bool.or_eq_false_iff, Option.isNone_eq_false_iff, Option.isSome_iff_exists] at hm
  obtain ⟨⟨⟨⟨⟨⟨⟨⟨⟨⟨vid, h1⟩, ⟨vc, h2⟩⟩, ⟨vt, h3⟩⟩, ⟨vp, h4⟩⟩, ⟨vs, h5⟩⟩, ⟨vy, h6⟩⟩,
    ⟨va, h7⟩⟩, ⟨vpa, h8⟩⟩, ⟨vf2, h9⟩⟩, ⟨vau, h10⟩⟩ := hm
  rw [processSection.eq_def, h1, h2, h3, h4, h5, h6, h7, h8, h9, h10]
  cases vid with
  | null => exact absurd h1 hid
  | str t => exact ⟨_, rfl⟩
  | num q => exact ⟨_, rfl⟩

theorem processResultList_error {elems : List CourseField} {e : QErr}
    (h : processResultList elems = .error e) : e = .insight := by
  induction elems with
  | nil => cases h
  | cons g gs ih =>
    rw [processResultList] at h
    cases hg : processSection g (substYear g) with
    | error e2 => rw [hg] at h; cases h; exact processSection_error hg
    | ok s =>
      rw [hg] at h
      cases hrest : processResultList gs with
      | error e2 => rw [hrest] at h; cases h; exact ih hrest
      | ok rest => rw [hrest] at h; cases h

theorem processResultList_bad {elems : List CourseField} {f : CourseField}
    (hf : f ∈ elems) (hbad : processSection f (substYear f) = .error .insight) :
    processResultList elems = .error .insight := by
  induction elems with
  | nil => cases hf
  | cons g gs ih =>
    rw [processResultList]
    rcases List.mem_cons.mp hf with rfl | hf2
    · rw [hbad]
    · cases hg : processSection g (substYear g) with
      | error e2 => rw [processSection_error hg]
      | ok s =>
        rw [ih hf2]

theorem processJsonData_error {file : Option (List CourseField)} {e : QErr}
    (h : processJsonData file = .error e) : e = .insight := by
  cases file with
  | none => cases h; rfl
  | some elems => exact processResultList_error h

theorem mapME_bad {f : α → Except QErr β} (hins : ∀ a e, f a = .error e → e = .insight)
    {xs : List α} {a : α} (ha : a ∈ xs) (hbad : f a = .error .insight) :
    mapME f xs = .error .insight := by
  induction xs with
  | nil => cases ha
  | cons x xs ih =>
    rw [mapME]
    rcases List.mem_cons.mp ha with rfl | ha2
    · rw [hbad]
    · cases hx : f x with
      | error e2 => rw [hins x e2 hx]
      | ok y => rw [ih ha2]

theorem processSectionFiles_bad {files : List (Option (List CourseField))}
    {elems : List CourseField} {f : CourseField}
    (hfile : some elems ∈ files) (hf : f ∈ elems)
    (hbad : processSection f (substYear f) = .error .insight) :
    processSectionFiles files = .error .insight := by
  have hbadfile : processJsonData (some elems) = .error .insight :=
    processResultList_bad hf hbad
  rw [processSectionFiles,
    @mapME_bad _ _ processJsonData (fun a e h => processJsonData_error h)
      files (some elems) hfile hbadfile]

/-- A course element whose Course property is null while every required
property is present. -/
def nullCourseField : CourseField :=
  { id := some (.str "123"), Course := some .null, Title := some (.str "t"),
    Professor := some (.str "p"), Subject := some (.str "cpsc"),
    Avg := some (.num 90), Pass := some (.num 10), Fail := some (.num 0),
    Audit := some (.num 0), Year := some (.num 2015), Section := some (.str "001") }

/-- Counterexample to C5 as stated: an element whose required Course
property is null is accepted — the ingest succeeds and produces a Section
storing the null, instead of failing with InvalidContent. -/
theorem nullField_counterexample :
    nullCourseField.Course = some JVal.null ∧
    processSectionFiles [some [nullCourseField]] =
      .ok [⟨"123", JVal.null, .str "t", .str "p", .str "cpsc", some 2015,
        .num 90, .num 10, .num 0, .num 0⟩] := by
  constructor
  · rfl
  · decide

/-- C5 (amended): an element with a required property missing (strictly
`undefined`) aborts the whole section ingest with InvalidContent, and so
does a null id (its `toString()` throws and is wrapped); but a null value
in any other required property is accepted, because the check compares
`=== undefined` and null is not undefined. -/
theorem requiredFields_amended :
    (∀ (files : List (Option (List CourseField))) (elems : List CourseField)
       (f : CourseField), some elems ∈ files → f ∈ elems → missingRequired f = true →
       processSectionFiles files = .error .insight) ∧
    (∀ (files : List (Option (List CourseField))) (elems : List CourseField)
       (f : CourseField), some elems ∈ files → f ∈ elems → f.id = some JVal.null →
       processSectionFiles files = .error .insight) ∧
    (∀ f : CourseField, missingRequired f = false → f.id ≠ some JVal.null →
       ∃ s, processSection f (substYear f) = .ok s) := by
  refine ⟨?_, ?_, ?_⟩
  · intro files elems f hfile hf hm
    exact processSectionFiles_bad hfile hf (processSection_missing hm)
  · intro files elems f hfile hf hid
    exact processSectionFiles_bad hfile hf (processSection_nullId hid)
  · intro f hm hid
    exact processSection_ok_of_present hm hid

/-- Witness for C5 (amended): a file whose single element lacks the Avg
property makes the whole ingest fail with InvalidContent. -/
theorem requiredFields_amended_witness :
    processSectionFiles
      [some [{ id := some (.str "123"), Course := some (.str "310"),
               Title := some (.str "t"), Professor := some (.str "p"),
               Subject := some (.str "cpsc"), Pass := some (.num 10),
               Fail := some (.num 0), Audit := some (.num 0),
               Year := some (.num 2015), Section := some (.str "001") }]] =
      .error .insight :=
  requiredFields_amended.1 _ _ _ (List.mem_singleton.mpr rfl)
    (List.mem_singleton.mpr rfl) (by decide)

/-- C10: `isBase64` returns true on every input (its catch branch is dead,
since the forgiving base64 decoder of `Buffer.from` accepts every string),
so the pre-check of `processSectionKind` never rejects a payload: the
ingest fails with InvalidContent exactly when the zip stage or the course
file processing fails, never at the base64 gate. -/
theorem isBase64_total :
    (∀ s : String, isBase64 s = true) ∧
    (∀ (zipParse : String → Except QErr (List (Option (List CourseField))))
       (content : String),
      processSectionKind zipParse content = .error .insight ↔
        (∃ e, zipParse content = .error e) ∨
        (∃ files e, zipParse content = .ok files ∧
          processSectionFiles files = .error e)) := by
  constructor
  · intro s; rfl
  · intro zp content
    cases hz : zp content with
    | error e =>
      simp only [processSectionKind, isBase64, hz]
      constructor
      · intro _
        exact Or.inl ⟨e, rfl⟩
      · intro _
        simp
    | ok files =>
      cases hp : processSectionFiles files with
      | error e2 =>
        simp only [processSectionKind, isBase64, hz, hp]
        constructor
        · intro _
          exact Or.inr ⟨files, e2, rfl, hp⟩
        · intro _
          simp
      | ok l =>
        simp only [processSectionKind, isBase64, hz, hp]
        constructor
        · intro h
          simp at h
        · rintro (⟨e, he⟩ | ⟨files2, e2, hf2, hp2⟩)
          · cases he
          · cases hf2
            rw [hp] at hp2
            cases hp2

/-- A stored dataset document: the parsed content of one JSON file in the
data directory (the id and the Sections row array, as `JSON.stringify`
writes a Dataset and `loadFromDisk` reads it back). -/
structure StoredDoc where
  id : String
  sections : List Sec
  deriving DecidableEq, Repr

/-- The data directory as an association list from file name (the path
relative to the data directory) to parsed document content. -/
abbrev FileStore := List (String × StoredDoc)

/-- Reading a directory entry. -/
def fsLookup (st : FileStore) (name : String) : Option StoredDoc := st.lookup name

/-- `fs.writeFile`: overwrites an existing file or creates a new one. -/
def fsWrite : FileStore → String → StoredDoc → FileStore
  | [], name, doc => [(name, doc)]
  | (n, d) :: rest, name, doc =>
    if n = name then (n, doc) :: rest else (n, d) :: fsWrite rest name doc

/-- `fs.remove`: deletes the file when present and silently succeeds when
the path does not exist. -/
def fsRemove (st : FileStore) (name : String) : FileStore :=
  st.filter (fun p => p.1 != name)

/-- Embeds `DatasetProcessor.doesDatasetExist`: accessibility of
`<encodeDatasetId(id)>.json`. -/
def doesDatasetExist (st : FileStore) (id : String) : Bool :=
  (fsLookup st (encodeDatasetId id ++ ".json")).isSome

/-- Embeds `DatasetProcessor.saveToDisk`: writes the document under
`<encodeDatasetId(id)>.json`. -/
def saveToDisk (st : FileStore) (doc : StoredDoc) : FileStore :=
  fsWrite st (encodeDatasetId doc.id ++ ".json") doc

/-- Embeds `DatasetProcessor.loadFromDisk`: reads
`<encodeDatasetId(id)>.json` and rebuilds the dataset; a read failure
(the file being absent) rejects with `InsightError`, not with
`NotFoundError`. -/
def loadFromDisk (st : FileStore) (id : String) : Except QErr StoredDoc :=
  match fsLookup st (encodeDatasetId id ++ ".json") with
  | some doc => .ok doc
  | none => .error .insight

/-- Embeds `InsightFacade.removeDataset`: validates the id, checks
existence through the processor (which encodes the id), throws
`NotFoundError` when absent — and then unlinks `<id>.json` built from the
RAW id by direct path concatenation, not from the encoded id the save
used. -/
def removeDataset (st : FileStore) (id : String) : Except QErr (String × FileStore) :=
  if validDatasetId id = false then .error .insight
  else if doesDatasetExist st id = false then .error .notFound
  else .ok (id, fsRemove st (id ++ ".json"))

/-- Whether a file name ends in `.json`. -/
def isJsonName (n : String) : Bool :=
  match n.data.reverse with
  | 'n' :: 'o' :: 's' :: 'j' :: '.' :: _ => true
  | _ => false

/-- Stripping the trailing `.json`. -/
def dropJsonExt (n : String) : String :=
  String.mk (n.data.take (n.data.length - 5))

/-- Embeds `DatasetProcessor.getAllDatasetIds`: every `.json` file name in
the data directory, decoded through the codec (a decode failure would be a
thrown `URIError`). -/
def getAllDatasetIds (st : FileStore) : Except QErr (List String) :=
  mapME (fun name =>
    match decodeDatasetId (dropJsonExt name) with
    | some i => .ok i
    | none => .error .other)
    ((st.map Prod.fst).filter isJsonName)

/-- C9 (code bug), recorded at the concrete id "my courses": the save
writes the file my%20courses.json (the codec encodes the space) but
removeDataset unlinks the path built from the raw id, my courses.json, so
the remove resolves successfully while the dataset file survives — the id
is still listed and still loads afterwards.  Separately, loading a missing
id rejects with the InsightError kind, not NotFoundError. -/
theorem removeDataset_leaves_encoded_file :
    removeDataset (saveToDisk [] ⟨"my courses", []⟩) "my courses" =
      .ok ("my courses", saveToDisk [] ⟨"my courses", []⟩) ∧
    getAllDatasetIds (saveToDisk [] ⟨"my courses", []⟩) = .ok ["my courses"] ∧
    loadFromDisk (saveToDisk [] ⟨"my courses", []⟩) "my courses" =
      .ok ⟨"my courses", []⟩ ∧
    loadFromDisk [] "my courses" = .error .insight := by
  refine ⟨?_, ?_, ?_, ?_⟩ <;> decide

theorem hexVal_hexDigit {n : Nat} (h : n < 16) : hexVal (hexDigit n) = some n := by
  interval_cases n <;> decide

theorem decodeEscape1 {b : Nat} (hlo : b < 0x80) (rest : List Char) :
    decodeEscape (hexDigit (b / 16) :: hexDigit (b % 16) :: rest) = some (b, rest) := by
  have e1 : hexVal (hexDigit (b / 16)) = some (b / 16) := hexVal_hexDigit (by omega)
  have e2 : hexVal (hexDigit (b % 16)) = some (b % 16) := hexVal_hexDigit (by omega)
  rw [decodeEscape]
  split
  · rename_i a1 a2 he1 he2
    rw [e1] at he1
    rw [e2] at he2
    cases he1
    cases he2
    rw [if_pos (by omega)]
    rw [show b / 16 * 16 + b % 16 = b from by omega]
  · rename_i hne
    exact (hne _ _ e1 e2).elim

theorem decodeEscape2 {n : Nat} (hlo : 0x80 ≤ n) (hhi : n < 0x800) (rest : List Char) :
    decodeEscape (hexDigit ((0xC0 + n / 0x40) / 16) :: hexDigit ((0xC0 + n / 0x40) % 16) ::
        '%' :: hexDigit ((0x80 + n % 0x40) / 16) :: hexDigit ((0x80 + n % 0x40) % 16) :: rest) =
      some (n, rest) := by
  have e1 : hexVal (hexDigit ((0xC0 + n / 0x40) / 16)) = some ((0xC0 + n / 0x40) / 16) :=
    hexVal_hexDigit (by omega)
  have e2 : hexVal (hexDigit ((0xC0 + n / 0x40) % 16)) = some ((0xC0 + n / 0x40) % 16) :=
    hexVal_hexDigit (by omega)
  have e3 : hexVal (hexDigit ((0x80 + n % 0x40) / 16)) = some ((0x80 + n % 0x40) / 16) :=
    hexVal_hexDigit (by omega)
  have e4 : hexVal (hexDigit ((0x80 + n % 0x40) % 16)) = some ((0x80 + n % 0x40) % 16) :=
    hexVal_hexDigit (by omega)
  rw [decodeEscape]
  split
  · rename_i a1 a2 he1 he2
    rw [e1] at he1
    rw [e2] at he2
    cases he1
    cases he2
    rw [show (0xC0 + n / 0x40) / 16 * 16 + (0xC0 + n / 0x40) % 16 = 0xC0 + n / 0x40 from by omega]
    rw [if_neg (by omega), if_neg (by omega), if_pos (by omega)]
    split
    · rename_i g1 g2 cs3 heq
      injection heq with hh heq
      injection heq with h1 heq
      injection heq with h2 h3
      subst h1
      subst h2
      subst h3
      split
      · rename_i a3 a4 he3 he4
        rw [e3] at he3
        rw [e4] at he4
        cases he3
        cases he4
        rw [show (0x80 + n % 0x40) / 16 * 16 + (0x80 + n % 0x40) % 16 = 0x80 + n % 0x40 from by
          omega]
        rw [if_pos (by simp only [contByte, Bool.and_eq_true, decide_eq_true_eq]; omega)]
        rw [show (0xC0 + n / 0x40 - 0xC0) * 0x40 + (0x80 + n % 0x40 - 0x80) = n from by omega]
      · rename_i hne
        exact (hne _ _ e3 e4).elim
    · rename_i hne2
      exact (hne2 _ _ _ rfl).elim
  · rename_i hne
    exact (hne _ _ e1 e2).elim

theorem decodeEscape3 {n : Nat} (hlo : 0x800 ≤ n) (hhi : n < 0x10000)
    (hsur : ¬(0xD800 ≤ n ∧ n < 0xE000)) (rest : List Char) :
    decodeEscape (hexDigit ((0xE0 + n / 0x1000) / 16) :: hexDigit ((0xE0 + n / 0x1000) % 16) ::
        '%' :: hexDigit ((0x80 + n / 0x40 % 0x40) / 16) ::
        hexDigit ((0x80 + n / 0x40 % 0x40) % 16) ::
        '%' :: hexDigit ((0x80 + n % 0x40) / 16) :: hexDigit ((0x80 + n % 0x40) % 16) :: rest) =
      some (n, rest) := by
  have e1 : hexVal (hexDigit ((0xE0 + n / 0x1000) / 16)) = some ((0xE0 + n / 0x1000) / 16) :=
    hexVal_hexDigit (by omega)
  have e2 : hexVal (hexDigit ((0xE0 + n / 0x1000) % 16)) = some ((0xE0 + n / 0x1000) % 16) :=
    hexVal_hexDigit (by omega)
  have e3 : hexVal (hexDigit ((0x80 + n / 0x40 % 0x40) / 16)) =
      some ((0x80 + n / 0x40 % 0x40) / 16) := hexVal_hexDigit (by omega)
  have e4 : hexVal (hexDigit ((0x80 + n / 0x40 % 0x40) % 16)) =
      some ((0x80 + n / 0x40 % 0x40) % 16) := hexVal_hexDigit (by omega)
  have e5 : hexVal (hexDigit ((0x80 + n % 0x40) / 16)) = some ((0x80 + n % 0x40) / 16) :=
    hexVal_hexDigit (by omega)
  have e6 : hexVal (hexDigit ((0x80 + n % 0x40) % 16)) = some ((0x80 + n % 0x40) % 16) :=
    hexVal_hexDigit (by omega)
  rw [decodeEscape]
  split
  · rename_i a1 a2 he1 he2
    rw [e1] at he1
    rw [e2] at he2
    cases he1
    cases he2
    rw [show (0xE0 + n / 0x1000) / 16 * 16 + (0xE0 + n / 0x1000) % 16 = 0xE0 + n / 0x1000 from by
      omega]
    rw [if_neg (by omega), if_neg (by omega), if_neg (by omega), if_pos (by omega)]
    split
    · rename_i g1 g2 g3 g4 cs3 heq
      injection heq with hh heq
      injection heq with h1 heq
      injection heq with h2 heq
      injection heq with hh2 heq
      injection heq with h3 heq
      injection heq with h4 h5
      subst h1
      subst h2
      subst h3
      subst h4
      subst h5
      split
      · rename_i a3 a4 a5 a6 he3 he4 he5 he6
        rw [e3] at he3
        rw [e4] at he4
        rw [e5] at he5
        rw [e6] at he6
        cases he3
        cases he4
        cases he5
        cases he6
        rw [show (0x80 + n / 0x40 % 0x40) / 16 * 16 + (0x80 + n / 0x40 % 0x40) % 16 =
          0x80 + n / 0x40 % 0x40 from by omega]
        rw [show (0x80 + n % 0x40) / 16 * 16 + (0x80 + n % 0x40) % 16 = 0x80 + n % 0x40 from by
          omega]
        have hcond : (contByte (0x80 + n / 0x40 % 0x40) && contByte (0x80 + n % 0x40) &&
            decide (0x800 ≤ n) && !(decide (0xD800 ≤ n) && decide (n < 0xE000))) = true := by
          simp only [contByte, Bool.and_eq_true, decide_eq_true_eq, Bool.not_eq_true',
            Bool.and_eq_false_iff, decide_eq_false_iff_not]
          omega
        simp only [show (0xE0 + n / 0x1000 - 0xE0) * 0x1000 +
          (0x80 + n / 0x40 % 0x40 - 0x80) * 0x40 + (0x80 + n % 0x40 - 0x80) = n from by omega,
          hcond, if_true]
      · rename_i hne
        exact (hne _ _ _ _ e3 e4 e5 e6).elim
    · rename_i hne2
      exact (hne2 _ _ _ _ _ rfl).elim
  · rename_i hne
    exact (hne _ _ e1 e2).elim

theorem decodeEscape4 {n : Nat} (hlo : 0x10000 ≤ n) (hhi : n < 0x110000) (rest : List Char) :
    decodeEscape (hexDigit ((0xF0 + n / 0x40000) / 16) :: hexDigit ((0xF0 + n / 0x40000) % 16) ::
        '%' :: hexDigit ((0x80 + n / 0x1000 % 0x40) / 16) ::
        hexDigit ((0x80 + n / 0x1000 % 0x40) % 16) ::
        '%' :: hexDigit ((0x80 + n / 0x40 % 0x40) / 16) ::
        hexDigit ((0x80 + n / 0x40 % 0x40) % 16) ::
        '%' :: hexDigit ((0x80 + n % 0x40) / 16) :: hexDigit ((0x80 + n % 0x40) % 16) :: rest) =
      some (n, rest) := by
  have e1 : hexVal (hexDigit ((0xF0 + n / 0x40000) / 16)) = some ((0xF0 + n / 0x40000) / 16) :=
    hexVal_hexDigit (by omega)
  have e2 : hexVal (hexDigit ((0xF0 + n / 0x40000) % 16)) = some ((0xF0 + n / 0x40000) % 16) :=
    hexVal_hexDigit (by omega)
  have e3 : hexVal (hexDigit ((0x80 + n / 0x1000 % 0x40) / 16)) =
      some ((0x80 + n / 0x1000 % 0x40) / 16) := hexVal_hexDigit (by omega)
  have e4 : hexVal (hexDigit ((0x80 + n / 0x1000 % 0x40) % 16)) =
      some ((0x80 + n / 0x1000 % 0x40) % 16) := hexVal_hexDigit (by omega)
  have e5 : hexVal (hexDigit ((0x80 + n / 0x40 % 0x40) / 16)) =
      some ((0x80 + n / 0x40 % 0x40) / 16) := hexVal_hexDigit (by omega)
  have e6 : hexVal (hexDigit ((0x80 + n / 0x40 % 0x40) % 16)) =
      some ((0x80 + n / 0x40 % 0x40) % 16) := hexVal_hexDigit (by omega)
  have e7 : hexVal (hexDigit ((0x80 + n % 0x40) / 16)) = some ((0x80 + n % 0x40) / 16) :=
    hexVal_hexDigit (by omega)
  have e8 : hexVal (hexDigit ((0x80 + n % 0x40) % 16)) = some ((0x80 + n % 0x40) % 16) :=
    hexVal_hexDigit (by omega)
  rw [decodeEscape]
  split
  · rename_i a1 a2 he1 he2
    rw [e1] at he1
    rw [e2] at he2
    cases he1
    cases he2
    rw [show (0xF0 + n / 0x40000) / 16 * 16 + (0xF0 + n / 0x40000) % 16 =
      0xF0 + n / 0x40000 from by omega]
    rw [if_neg (by omega), if_neg (by omega), if_neg (by omega), if_neg (by omega),
      if_pos (by omega)]
    split
    · rename_i g1 g2 g3 g4 g5 g6 cs3 heq
      injection heq with hh heq
      injection heq with h1 heq
      injection heq with h2 heq
      injection heq with hh2 heq
      injection heq with h3 heq
      injection heq with h4 heq
      injection heq with hh3 heq
      injection heq with h5 heq
      injection heq with h6 h7
      subst h1
      subst h2
      subst h3
      subst h4
      subst h5
      subst h6
      subst h7
      split
      · rename_i a3 a4 a5 a6 a7 a8 he3 he4 he5 he6 he7 he8
        rw [e3] at he3
        rw [e4] at he4
        rw [e5] at he5
        rw [e6] at he6
        rw [e7] at he7
        rw [e8] at he8
        cases he3
        cases he4
        cases he5
        cases he6
        cases he7
        cases he8
        rw [show (0x80 + n / 0x1000 % 0x40) / 16 * 16 + (0x80 + n / 0x1000 % 0x40) % 16 =
          0x80 + n / 0x1000 % 0x40 from by omega]
        rw [show (0x80 + n / 0x40 % 0x40) / 16 * 16 + (0x80 + n / 0x40 % 0x40) % 16 =
          0x80 + n / 0x40 % 0x40 from by omega]
        rw [show (0x80 + n % 0x40) / 16 * 16 + (0x80 + n % 0x40) % 16 = 0x80 + n % 0x40 from by
          omega]
        have hcond : (contByte (0x80 + n / 0x1000 % 0x40) && contByte (0x80 + n / 0x40 % 0x40) &&
            contByte (0x80 + n % 0x40) && decide (0x10000 ≤ n) && decide (n < 0x110000)) =
            true := by
          simp only [contByte, Bool.and_eq_true, decide_eq_true_eq]
          omega
        simp only [show (0xF0 + n / 0x40000 - 0xF0) * 0x40000 +
          (0x80 + n / 0x1000 % 0x40 - 0x80) * 0x1000 + (0x80 + n / 0x40 % 0x40 - 0x80) * 0x40 +
          (0x80 + n % 0x40 - 0x80) = n from by omega, hcond, if_true]
      · rename_i hne
        exact (hne _ _ _ _ _ _ e3 e4 e5 e6 e7 e8).elim
    · rename_i hne2
      exact (hne2 _ _ _ _ _ _ _ rfl).elim
  · rename_i hne
    exact (hne _ _ e1 e2).elim

theorem decodeF_lit {c : Char} (h : ¬ c = '%') (fuel : Nat) (cs : List Char) :
    decodeUriCharsF (fuel + 1) (c :: cs) = (decodeUriCharsF fuel cs).map (c :: ·) := by
  rw [decodeUriCharsF, if_neg h]

theorem decodeF_esc {cs : List Char} {n : Nat} {cs3 : List Char} (fuel : Nat)
    (h : decodeEscape cs = some (n, cs3)) :
    decodeUriCharsF (fuel + 1) ('%' :: cs) =
      (decodeUriCharsF fuel cs3).map (Char.ofNat n :: ·) := by
  rw [decodeUriCharsF, if_pos rfl, h]

theorem decode_encodeChar (c : Char) (fuel : Nat) (rest : List Char) :
    decodeUriCharsF (fuel + 1) (encodeChar c ++ rest) =
      (decodeUriCharsF fuel rest).map (c :: ·) := by
  by_cases hu : isUnreservedChar c
  · rw [encodeChar, if_pos hu]
    have hc : ¬ c = '%' := by
      intro h
      rw [h] at hu
      exact absurd hu (by decide)
    simp only [List.cons_append, List.nil_append]
    rw [decodeF_lit hc]
  · rw [encodeChar, if_neg hu]
    have hvalid := c.valid
    rw [UInt32.isValidChar, Nat.isValidChar] at hvalid
    rw [show c.val.toNat = c.toNat from rfl] at hvalid
    by_cases h1 : c.toNat < 0x80
    · rw [utf8Bytes, if_pos h1]
      simp only [List.flatMap_cons, List.flatMap_nil, List.append_nil, percentEscape,
        List.cons_append, List.nil_append, List.append_assoc]
      rw [decodeF_esc fuel (decodeEscape1 h1 rest), Char.ofNat_toNat]
    · by_cases h2 : c.toNat < 0x800
      · rw [utf8Bytes, if_neg h1, if_pos h2]
        simp only [List.flatMap_cons, List.flatMap_nil, List.append_nil, percentEscape,
          List.cons_append, List.nil_append, List.append_assoc]
        rw [decodeF_esc fuel (decodeEscape2 (by omega) h2 rest), Char.ofNat_toNat]
      · by_cases h3 : c.toNat < 0x10000
        · have hsur : ¬(0xD800 ≤ c.toNat ∧ c.toNat < 0xE000) := by
            rcases hvalid with hlt | ⟨hgt, hlt⟩ <;> omega
          rw [utf8Bytes, if_neg h1, if_neg h2, if_pos h3]
          simp only [List.flatMap_cons, List.flatMap_nil, List.append_nil, percentEscape,
            List.cons_append, List.nil_append, List.append_assoc]
          rw [decodeF_esc fuel (decodeEscape3 (by omega) h3 hsur rest), Char.ofNat_toNat]
        · have h4 : c.toNat < 0x110000 := by
            rcases hvalid with hlt | ⟨hgt, hlt⟩ <;> omega
          rw [utf8Bytes, if_neg h1, if_neg h2, if_neg h3]
          simp only [List.flatMap_cons, List.flatMap_nil, List.append_nil, percentEscape,
            List.cons_append, List.nil_append, List.append_assoc]
          rw [decodeF_esc fuel (decodeEscape4 (by omega) h4 rest), Char.ofNat_toNat]

theorem decode_encode_aux (l : List Char) :
    ∀ (rest : List Char) (fuel : Nat),
      decodeUriCharsF (l.length + fuel) (l.flatMap encodeChar ++ rest) =
        (decodeUriCharsF fuel rest).map (l ++ ·) := by
  induction l with
  | nil =>
    intro rest fuel
    simp only [List.length_nil, Nat.zero_add, List.flatMap_nil, List.nil_append]
    cases decodeUriCharsF fuel rest <;> simp
  | cons c l ih =>
    intro rest fuel
    rw [show (c :: l).length + fuel = (l.length + fuel) + 1 from by simp [List.length_cons]; omega]
    simp only [List.flatMap_cons, List.append_assoc]
    rw [decode_encodeChar c (l.length + fuel) (l.flatMap encodeChar ++ rest), ih rest fuel]
    cases decodeUriCharsF fuel rest <;> simp

theorem one_le_encodeChar (c : Char) : 1 ≤ (encodeChar c).length := by
  rw [encodeChar]
  split
  · simp
  · rw [utf8Bytes]
    split
    · simp [percentEscape]
    · split
      · simp [percentEscape]
      · split <;> simp [percentEscape]

theorem length_le_encode (l : List Char) : l.length ≤ (l.flatMap encodeChar).length := by
  induction l with
  | nil => simp
  | cons c l ih =>
    simp only [List.flatMap_cons, List.length_append, List.length_cons]
    have := one_le_encodeChar c
    omega

theorem decode_encode_chars (l : List Char) :
    decodeUriChars (l.flatMap encodeChar) = some l := by
  rw [decodeUriChars]
  obtain ⟨k, hk⟩ : ∃ k, (l.flatMap encodeChar).length = l.length + k :=
    ⟨(l.flatMap encodeChar).length - l.length, by have := length_le_encode l; omega⟩
  rw [hk]
  have h := decode_encode_aux l [] k
  rw [List.append_nil] at h
  rw [h, show decodeUriCharsF k [] = some [] from by cases k <;> rfl]
  simp

theorem hexDigit_ne_slash {m : Nat} (h : m < 16) : ¬ hexDigit m = '/' := by
  interval_cases m <;> decide

theorem slash_not_in_percentEscape {b : Nat} (h : b < 256) : '/' ∉ percentEscape b := by
  intro hmem
  simp only [percentEscape, List.mem_cons, List.not_mem_nil, or_false] at hmem
  rcases hmem with h1 | h2 | h3
  · exact absurd h1 (by decide)
  · exact hexDigit_ne_slash (by omega) h2.symm
  · exact hexDigit_ne_slash (by omega) h3.symm

theorem utf8Bytes_lt {n b : Nat} (hn : n < 0x110000) (hb : b ∈ utf8Bytes n) : b < 256 := by
  rw [utf8Bytes] at hb
  split at hb <;> [skip; split at hb] <;> [skip; skip; split at hb] <;>
    simp only [List.mem_cons, List.not_mem_nil, or_false] at hb <;> omega

theorem slash_not_in_encodeChar (c : Char) : '/' ∉ encodeChar c := by
  rw [encodeChar]
  split
  · rename_i hu
    simp only [List.mem_singleton]
    intro h
    rw [h.symm] at hu
    exact absurd hu (by decide)
  · intro hmem
    simp only [List.mem_flatMap] at hmem
    obtain ⟨b, hb, hs⟩ := hmem
    have hvalid := c.valid
    rw [UInt32.isValidChar, Nat.isValidChar] at hvalid
    rw [show c.val.toNat = c.toNat from rfl] at hvalid
    have hn : c.toNat < 0x110000 := by rcases hvalid with h | ⟨_, h⟩ <;> omega
    exact slash_not_in_percentEscape (utf8Bytes_lt hn hb) hs

/-- C3: for every legal dataset id (non-empty, no underscore, not all
whitespace, any other characters allowed, slash included), decoding the
encoding returns exactly the id, and the encoded form is a single safe
filename segment: it contains no slash and is non-empty. -/
theorem codec_roundtrip (id : String) (h : validDatasetId id = true) :
    decodeDatasetId (encodeDatasetId id) = some id ∧
      '/' ∉ (encodeDatasetId id).data ∧ (encodeDatasetId id).data ≠ [] := by
  refine ⟨?_, ?_, ?_⟩
  · rw [decodeDatasetId, show (encodeDatasetId id).data = id.data.flatMap encodeChar from rfl,
      decode_encode_chars]
    rfl
  · rw [show (encodeDatasetId id).data = id.data.flatMap encodeChar from rfl]
    intro hmem
    simp only [List.mem_flatMap] at hmem
    obtain ⟨c, _, hc⟩ := hmem
    exact slash_not_in_encodeChar c hc
  · rw [show (encodeDatasetId id).data = id.data.flatMap encodeChar from rfl]
    rw [validDatasetId] at h
    simp only [Bool.and_eq_true, Bool.not_eq_true'] at h
    have hne : id.data ≠ [] := by
      intro hnil
      have := h.1.1
      rw [hnil] at this
      exact absurd this (by decide)
    cases hd : id.data with
    | nil => exact absurd hd hne
    | cons c l =>
      simp only [List.flatMap_cons]
      intro hap
      have hnil := (List.append_eq_nil.mp hap).1
      have := one_le_encodeChar c
      rw [hnil] at this
      simp at this

theorem codec_roundtrip_witness :
    validDatasetId "my courses/x" = true ∧
      (decodeDatasetId (encodeDatasetId "my courses/x") = some "my courses/x" ∧
        '/' ∉ (encodeDatasetId "my courses/x").data ∧
        (encodeDatasetId "my courses/x").data ≠ []) :=
  ⟨by decide, codec_roundtrip "my courses/x" (by decide)⟩
